import Mathlib

/-!
Verification of `esky/fstransact.py`: best-effort transactional filesystem
operations.

The module is shallowly embedded.  Filesystem paths are strings; the
filesystem is a map from paths to entries (regular files with byte content,
or directories).  Per-path fault-injection flags model the environment
errors the Python code can encounter: `statFails` (os.stat raises),
`openFails` (open for read raises), `readFails` (a read call raises), and a
filesystem-level `writeFails` predicate (creating, replacing or unlinking
that path raises a permission error).  Fallible calls return `Except`; a
mutating call that raises carries the filesystem state at the moment of the
exception, mirroring the fact that a Python exception does not undo
previous syscalls.
-/

namespace Esky

abbrev Path := String

abbrev Bytes := List Nat

/-- A regular file: its byte content plus fault-injection flags for the
three read-side syscalls the source performs on it. -/
structure FileObj where
  content : Bytes
  statFails : Bool
  openFails : Bool
  readFails : Bool
  deriving DecidableEq, Repr

/-- A directory entry: a regular file or a directory. -/
inductive Entry where
  | file (f : FileObj)
  | dir
  deriving DecidableEq, Repr

/-- The filesystem: entries by path, plus the write-side fault injection
(paths on which create/replace/unlink raise a permission error). -/
structure FS where
  entries : Path → Option Entry
  writeFails : Path → Bool

/-- Point update of the entry map. -/
def FS.set (fs : FS) (p : Path) (e : Option Entry) : FS :=
  { fs with entries := fun q => if q = p then e else fs.entries q }

@[simp] theorem FS.entries_set_self (fs : FS) (p : Path) (e : Option Entry) :
    (fs.set p e).entries p = e := by
  simp [FS.set]

theorem FS.entries_set_ne (fs : FS) {p q : Path} (h : q ≠ p) (e : Option Entry) :
    (fs.set p e).entries q = fs.entries q := by
  simp [FS.set, h]

@[simp] theorem FS.writeFails_set (fs : FS) (p : Path) (e : Option Entry) (q : Path) :
    (fs.set p e).writeFails q = fs.writeFails q := rfl

/-- The exception kinds the embedded code can raise. -/
inductive PyErr where
  | fileNotFound
  | permissionError
  | fileExists
  | isADirectory
  | notADirectory
  | ioError
  | nameError
  deriving DecidableEq, Repr

/-- `target + ".old"`: the sibling backup path used by the replace protocol. -/
def oldOf (p : Path) : Path := p ++ ".old"

theorem oldOf_ne_self (p : Path) : oldOf p ≠ p := by
  intro h
  have hl := congrArg String.length h
  simp [oldOf, String.length_append] at hl
  exact absurd hl (by decide)

/-- `os.stat`, reduced to the only field the source consults (`st_size`).
Fails when the path is absent or its stat fault flag is set. -/
def osStat (fs : FS) (p : Path) : Except PyErr Nat :=
  match fs.entries p with
  | none => .error .fileNotFound
  | some (.file f) => if f.statFails then .error .permissionError else .ok f.content.length
  | some .dir => .ok 0

/-- `open(p, "rb")`: fails on a missing path, a directory, or an injected
open failure; otherwise hands back the file object. -/
def openRead (fs : FS) (p : Path) : Except PyErr FileObj :=
  match fs.entries p with
  | none => .error .fileNotFound
  | some .dir => .error .isADirectory
  | some (.file f) => if f.openFails then .error .permissionError else .ok f

/-- `os.path.exists`: false when the path is absent or stat fails on it. -/
def pexists (fs : FS) (p : Path) : Bool :=
  match fs.entries p with
  | none => false
  | some (.file f) => !f.statFails
  | some .dir => true

/-- `os.path.isfile`: true for a stat-able regular file. -/
def isfile (fs : FS) (p : Path) : Bool :=
  match fs.entries p with
  | some (.file f) => !f.statFails
  | _ => false

/-- `os.path.isdir`. -/
def isdir (fs : FS) (p : Path) : Bool :=
  match fs.entries p with
  | some .dir => true
  | _ => false

/-- `os.rename src dst`.  Fails (leaving the filesystem unchanged) when the
source is absent, when either path has an injected write failure, or — on
win32, where rename cannot replace — when the destination exists.  On
success the rename is a single atomic directory-entry move. -/
def osRename (w : Bool) (fs : FS) (src dst : Path) : Except (PyErr × FS) FS :=
  if (fs.entries src).isNone then .error (.fileNotFound, fs)
  else if fs.writeFails src || fs.writeFails dst then .error (.permissionError, fs)
  else if w && (fs.entries dst).isSome then .error (.fileExists, fs)
  else .ok ((fs.set dst (fs.entries src)).set src none)

/-- `os.unlink`. -/
def osUnlink (fs : FS) (p : Path) : Except (PyErr × FS) FS :=
  match fs.entries p with
  | none => .error (.fileNotFound, fs)
  | some .dir => .error (.isADirectory, fs)
  | some (.file _) =>
    if fs.writeFails p then .error (.permissionError, fs) else .ok (fs.set p none)

/-- `os.rmdir`. -/
def osRmdir (fs : FS) (p : Path) : Except (PyErr × FS) FS :=
  match fs.entries p with
  | none => .error (.fileNotFound, fs)
  | some (.file _) => .error (.notADirectory, fs)
  | some .dir =>
    if fs.writeFails p then .error (.permissionError, fs) else .ok (fs.set p none)

/-- `shutil.copy2 src dst`.  The source is opened first (missing /
directory / injected open failure abort with the destination untouched);
then the destination is opened for writing, which truncates it — so an
injected read failure on the source leaves the destination as an empty
file and raises, modelling a copy that dies after truncating the target. -/
def copy2 (fs : FS) (src dst : Path) : Except (PyErr × FS) FS :=
  match fs.entries src with
  | none => .error (.fileNotFound, fs)
  | some .dir => .error (.isADirectory, fs)
  | some (.file f) =>
    if f.openFails then .error (.permissionError, fs)
    else if fs.writeFails dst then .error (.permissionError, fs)
    else if isdir fs dst then .error (.isADirectory, fs)
    else if f.readFails then
      .error (.ioError, fs.set dst (some (.file ⟨[], false, false, false⟩)))
    else .ok (fs.set dst (some (.file ⟨f.content, false, false, false⟩)))

/-- The read chunk size of `files_differ` (`1024*256`). -/
def CHUNK : Nat := 1024 * 256

/-- The comparison loop of `files_differ`: `data1`/`data2` are the chunks
just read, `rest1`/`rest2` what remains of each stream.

    while data1 and data2:
        if data1 != data2: return True
        data1 = f1.read(CHUNK); data2 = f2.read(CHUNK)
    return (data1 != data2)
-/
def cmpData (rest1 rest2 data1 data2 : Bytes) : Bool :=
  if h : data1 ≠ [] ∧ data2 ≠ [] then
    if data1 ≠ data2 then true
    else cmpData (rest1.drop CHUNK) (rest2.drop CHUNK) (rest1.take CHUNK) (rest2.take CHUNK)
  else decide (data1 ≠ data2)
termination_by rest1.length + data1.length
decreasing_by
  have h1 : 0 < data1.length := List.length_pos.mpr h.1
  simp [List.length_take, List.length_drop]
  omega

/-- `files_differ(file1, file2)` from the source.  Only the two `os.stat`
calls sit inside the `try`/`except EnvironmentError` that returns `True`;
the subsequent `open` and `read` calls are unprotected, so their failures
propagate to the caller. -/
def files_differ (fs : FS) (file1 file2 : Path) : Except PyErr Bool :=
  match osStat fs file1 with
  | .error _ => .ok true
  | .ok size1 =>
    match osStat fs file2 with
    | .error _ => .ok true
    | .ok size2 =>
      if size1 ≠ size2 then .ok true
      else
        match openRead fs file1 with
        | .error e => .error e
        | .ok f1 =>
          match openRead fs file2 with
          | .error e => .error e
          | .ok f2 =>
            if f1.readFails then .error .ioError
            else if f2.readFails then .error .ioError
            else .ok (cmpData (f1.content.drop CHUNK) (f2.content.drop CHUNK)
                              (f1.content.take CHUNK) (f2.content.take CHUNK))

/-- A queued operation of the deferred backend: the source stores the
bound method name (`"_move"`, `"_copy"`, `"_remove"`) with its arguments. -/
inductive Op where
  | move (source target : Path)
  | copy (source target : Path)
  | remove (target : Path)
  deriving DecidableEq, Repr

/-- The state of a deferred `FSTransaction`: its `self.pending` list. -/
structure Txn where
  pending : List Op
  deriving DecidableEq, Repr

namespace Deferred

/-- `FSTransaction.move` (deferred): enqueue the move when the files
differ, otherwise `self.remove(source)` — enqueue a removal of the
now-redundant source.  `files_differ` may itself raise, which propagates;
no write syscall is performed, so the filesystem is returned unchanged. -/
def move (fs : FS) (tr : Txn) (source target : Path) : Except PyErr (FS × Txn) :=
  match files_differ fs source target with
  | .error e => .error e
  | .ok true => .ok (fs, ⟨tr.pending ++ [.move source target]⟩)
  | .ok false => .ok (fs, ⟨tr.pending ++ [.remove source]⟩)

/-- `FSTransaction.copy` (deferred): enqueue the copy when the files
differ, otherwise do nothing. -/
def copy (fs : FS) (tr : Txn) (source target : Path) : Except PyErr (FS × Txn) :=
  match files_differ fs source target with
  | .error e => .error e
  | .ok true => .ok (fs, ⟨tr.pending ++ [.copy source target]⟩)
  | .ok false => .ok (fs, tr)

/-- `FSTransaction.remove` (deferred): unconditionally enqueue; touches
neither the filesystem nor raises. -/
def remove (tr : Txn) (target : Path) : Txn :=
  ⟨tr.pending ++ [.remove target]⟩

/-- `FSTransaction.abort` (deferred): `del self.pending[:]`. -/
def abort (tr : Txn) : Txn := ⟨[]⟩

/-- `FSTransaction._move`, the apply step run at commit time.  `w` is
`sys.platform == "win32"`.  On win32 with an existing target: back the
target up as `target + ".old"`, rename the source over it, and on failure
rename the backup back and re-raise; on success best-effort unlink the
backup, swallowing any error.  Otherwise: plain `os.rename`. -/
def applyMove (w : Bool) (fs : FS) (source target : Path) : Except (PyErr × FS) FS :=
  if w && pexists fs target then
    match osRename w fs target (oldOf target) with
    | .error efs => .error efs
    | .ok fs1 =>
      match osRename w fs1 source target with
      | .error (e, fs2) =>
        match osRename w fs2 (oldOf target) target with
        | .error efs3 => .error efs3
        | .ok fs3 => .error (e, fs3)
      | .ok fs2 =>
        match osUnlink fs2 (oldOf target) with
        | .error (_, fs3) => .ok fs3
        | .ok fs3 => .ok fs3
  else
    osRename w fs source target

/-- `FSTransaction._copy`: same backup protocol with `shutil.copy2` as the
apply primitive. -/
def applyCopy (w : Bool) (fs : FS) (source target : Path) : Except (PyErr × FS) FS :=
  if w && pexists fs target then
    match osRename w fs target (oldOf target) with
    | .error efs => .error efs
    | .ok fs1 =>
      match copy2 fs1 source target with
      | .error (e, fs2) =>
        match osRename w fs2 (oldOf target) target with
        | .error efs3 => .error efs3
        | .ok fs3 => .error (e, fs3)
      | .ok fs2 =>
        match osUnlink fs2 (oldOf target) with
        | .error (_, fs3) => .ok fs3
        | .ok fs3 => .ok fs3
  else
    copy2 fs source target

/-- `FSTransaction._remove`: unlink a regular file, `os.rmdir` anything
else (so a missing target raises at this point, from `os.rmdir`). -/
def applyRemove (fs : FS) (target : Path) : Except (PyErr × FS) FS :=
  if isfile fs target then osUnlink fs target else osRmdir fs target

/-- Dispatch of one queued operation, `getattr(self, op[0])(*op[1:])`. -/
def applyOp (w : Bool) (fs : FS) : Op → Except (PyErr × FS) FS
  | .move s t => applyMove w fs s t
  | .copy s t => applyCopy w fs s t
  | .remove t => applyRemove fs t

/-- The loop body of `FSTransaction.commit`: apply the queued operations
in FIFO order; the first failure aborts the loop, carrying the raising
operation and the filesystem state it left behind. -/
def commitLoop (w : Bool) (fs : FS) : List Op → Except (PyErr × Op × FS) FS
  | [] => .ok fs
  | op :: rest =>
    match applyOp w fs op with
    | .error (e, fs1) => .error (e, op, fs1)
    | .ok fs1 => commitLoop w fs1 rest

/-- `FSTransaction.commit` (deferred): run the loop over `self.pending`.
The source never mutates `self.pending` here, so the transaction state is
returned as it was. -/
def commit (w : Bool) (fs : FS) (tr : Txn) : Except (PyErr × Op × FS) FS × Txn :=
  (commitLoop w fs tr.pending, tr)

end Deferred

/-- One call into the Windows transacted-file API, as recorded by the
native backend (the calls take effect only at `CommitTransaction`). -/
inductive WinCall where
  | moveFile (src dst : Path)
  | copyFile (src dst : Path)
  | deleteFile (p : Path)
  | removeDir (p : Path)
  deriving DecidableEq, Repr

/-- All path arguments of one transacted call. -/
def callArgs : WinCall → List Path
  | .moveFile a b => [a, b]
  | .copyFile a b => [a, b]
  | .deleteFile p => [p]
  | .removeDir p => [p]

/-- The value of the name `source` in the scope of the native backend's
`remove` method.  `remove`'s only parameter is `target` and the module
defines no global `source`, so the lookup fails: the name is unbound. -/
def moduleSourceBinding : Option Path := none

namespace Native

/-- `FSTransaction.remove` (native).  The source computes
`tgtenc = source.encode(sys.getfilesystemencoding())`: `source` is looked
up via `srcBinding` (unbound in the shipped module, hence a `NameError`),
and `target` is consulted only by the `os.path.isdir` test.  `enc` is the
filesystem encoding. -/
def remove (enc : Path → Path) (srcBinding : Option Path) (fs : FS) (target : Path) :
    Except PyErr (List WinCall) :=
  match srcBinding with
  | none => .error .nameError
  | some s =>
    let tgtenc := enc s
    if isdir fs target then .ok [.removeDir tgtenc] else .ok [.deleteFile tgtenc]

/-- `FSTransaction.move` (native).  After the no-op pre-check — which
calls `self.remove(source)` but does **not** return, so execution falls
through — both `srcenc` and `tgtenc` are computed by encoding `source`. -/
def move (enc : Path → Path) (srcBinding : Option Path) (fs : FS) (source target : Path) :
    Except PyErr (List WinCall) :=
  match files_differ fs source target with
  | .error e => .error e
  | .ok differ =>
    match (if differ then (.ok [] : Except PyErr (List WinCall))
           else remove enc srcBinding fs source) with
    | .error e => .error e
    | .ok pre =>
      let srcenc := enc source
      let tgtenc := enc source
      if pexists fs target then
        .ok (pre ++ [.moveFile tgtenc (oldOf tgtenc), .moveFile srcenc tgtenc,
                     .deleteFile (oldOf tgtenc)])
      else
        .ok (pre ++ [.moveFile srcenc tgtenc])

/-- `FSTransaction.copy` (native): returns early on identical files;
otherwise, like `move`, both encoded paths come from `source`. -/
def copy (enc : Path → Path) (fs : FS) (source target : Path) :
    Except PyErr (List WinCall) :=
  match files_differ fs source target with
  | .error e => .error e
  | .ok differ =>
    if !differ then .ok []
    else
      let srcenc := enc source
      let tgtenc := enc source
      if pexists fs target then
        .ok [.moveFile tgtenc (oldOf tgtenc), .copyFile srcenc tgtenc,
             .deleteFile (oldOf tgtenc)]
      else
        .ok [.copyFile srcenc tgtenc]

end Native

/-! ## Correctness of the chunked comparison loop -/

theorem CHUNK_pos : 0 < CHUNK := by decide

/-- Invariant-carrying characterization of the comparison loop: on streams
whose chunks line up (equal data lengths, equal rest lengths, and an empty
chunk only at end of stream), the loop answers `false` exactly when both
the current chunks and the remaining streams agree. -/
theorem cmpData_false_iff (r1 r2 d1 d2 : Bytes) :
    d1.length = d2.length → r1.length = r2.length →
    (d1 = [] → r1 = []) → (d2 = [] → r2 = []) →
    (cmpData r1 r2 d1 d2 = false ↔ (d1 = d2 ∧ r1 = r2)) := by
  induction r1, r2, d1, d2 using cmpData.induct with
  | case1 r1 r2 d1 d2 h hne =>
    intro hd hr h1 h2
    rw [cmpData]
    rw [dif_pos h, if_pos hne]
    simp only [Bool.true_eq_false, false_iff]
    intro hc
    exact hne hc.1
  | case2 r1 r2 d1 d2 h hne ih =>
    intro hd hr h1 h2
    have hdd : d1 = d2 := not_not.mp hne
    rw [cmpData]
    rw [dif_pos h, if_neg hne]
    have hd' : (r1.take CHUNK).length = (r2.take CHUNK).length := by
      simp [List.length_take, hr]
    have hr' : (r1.drop CHUNK).length = (r2.drop CHUNK).length := by
      simp [List.length_drop, hr]
    have h1' : r1.take CHUNK = [] → r1.drop CHUNK = [] := by
      intro ht
      rcases List.take_eq_nil_iff.mp ht with hc | hc
      · exact absurd hc (by decide)
      · simp [hc]
    have h2' : r2.take CHUNK = [] → r2.drop CHUNK = [] := by
      intro ht
      rcases List.take_eq_nil_iff.mp ht with hc | hc
      · exact absurd hc (by decide)
      · simp [hc]
    rw [ih hd' hr' h1' h2']
    constructor
    · rintro ⟨ht, hdr⟩
      refine ⟨hdd, ?_⟩
      have := List.take_append_drop CHUNK r1
      rw [ht, hdr] at this
      rw [← this, List.take_append_drop]
    · rintro ⟨-, hrr⟩
      exact ⟨by rw [hrr], by rw [hrr]⟩
  | case3 r1 r2 d1 d2 h =>
    intro hd hr h1 h2
    rw [cmpData, dif_neg h]
    rcases not_and_or.mp h with hc | hc
    · have hd1 : d1 = [] := not_not.mp hc
      have hd2 : d2 = [] := by
        subst hd1
        exact List.eq_nil_of_length_eq_zero hd.symm
      have hr1 := h1 hd1
      have hr2 := h2 hd2
      subst hd1; subst hd2; subst hr1; subst hr2
      simp
    · have hd2 : d2 = [] := not_not.mp hc
      have hd1 : d1 = [] := by
        subst hd2
        exact List.eq_nil_of_length_eq_zero hd
      have hr1 := h1 hd1
      have hr2 := h2 hd2
      subst hd1; subst hd2; subst hr1; subst hr2
      simp

/-- The loop as entered by `files_differ` (first chunk of each file already
read) decides content equality, for equal-sized streams. -/
theorem cmpData_entry_iff (c1 c2 : Bytes) (h : c1.length = c2.length) :
    cmpData (c1.drop CHUNK) (c2.drop CHUNK) (c1.take CHUNK) (c2.take CHUNK) = false
      ↔ c1 = c2 := by
  rw [cmpData_false_iff _ _ _ _ (by simp [List.length_take, h])
        (by simp [List.length_drop, h])
        (fun ht => by
          rcases List.take_eq_nil_iff.mp ht with hc | hc
          · exact absurd hc (by decide)
          · simp [hc])
        (fun ht => by
          rcases List.take_eq_nil_iff.mp ht with hc | hc
          · exact absurd hc (by decide)
          · simp [hc])]
  constructor
  · rintro ⟨ht, hdr⟩
    have := List.take_append_drop CHUNK c1
    rw [ht, hdr, List.take_append_drop] at this
    exact this.symm
  · rintro rfl
    exact ⟨rfl, rfl⟩

/-! ## File comparator: claims C2 and C6 -/

/-- A path is fault-free: absent, or a regular file none of whose injected
read-side failures is set.  (Directories are not ordinary files and are
excluded.) -/
def cleanAt (fs : FS) (p : Path) : Bool :=
  match fs.entries p with
  | some (.file f) => !f.statFails && !f.openFails && !f.readFails
  | some .dir => false
  | none => true

/-- Stepping lemma: a stat failure on the first path is swallowed. -/
theorem files_differ_stat1_err {fs : FS} {p1 p2 : Path} {e : PyErr}
    (h : osStat fs p1 = .error e) : files_differ fs p1 p2 = .ok true := by
  simp [files_differ, h]

/-- Stepping lemma: a stat failure on the second path is swallowed. -/
theorem files_differ_stat2_err {fs : FS} {p1 p2 : Path} {n : Nat} {e : PyErr}
    (h1 : osStat fs p1 = .ok n) (h2 : osStat fs p2 = .error e) :
    files_differ fs p1 p2 = .ok true := by
  simp [files_differ, h1, h2]

/-- Stepping lemma: differing sizes short-circuit to `true`. -/
theorem files_differ_size_ne {fs : FS} {p1 p2 : Path} {n1 n2 : Nat}
    (h1 : osStat fs p1 = .ok n1) (h2 : osStat fs p2 = .ok n2) (hne : n1 ≠ n2) :
    files_differ fs p1 p2 = .ok true := by
  simp [files_differ, h1, h2, hne]

/-- Stepping lemma: a failure opening the first file propagates. -/
theorem files_differ_open1_err {fs : FS} {p1 p2 : Path} {n : Nat} {e : PyErr}
    (h1 : osStat fs p1 = .ok n) (h2 : osStat fs p2 = .ok n)
    (ho : openRead fs p1 = .error e) : files_differ fs p1 p2 = .error e := by
  simp [files_differ, h1, h2, ho]

/-- Stepping lemma: a failure opening the second file propagates. -/
theorem files_differ_open2_err {fs : FS} {p1 p2 : Path} {n : Nat} {f1 : FileObj} {e : PyErr}
    (h1 : osStat fs p1 = .ok n) (h2 : osStat fs p2 = .ok n)
    (ho1 : openRead fs p1 = .ok f1) (ho2 : openRead fs p2 = .error e) :
    files_differ fs p1 p2 = .error e := by
  simp [files_differ, h1, h2, ho1, ho2]

/-- Stepping lemma: a read failure on the first file propagates. -/
theorem files_differ_read1_err {fs : FS} {p1 p2 : Path} {n : Nat} {f1 f2 : FileObj}
    (h1 : osStat fs p1 = .ok n) (h2 : osStat fs p2 = .ok n)
    (ho1 : openRead fs p1 = .ok f1) (ho2 : openRead fs p2 = .ok f2)
    (hr : f1.readFails = true) : files_differ fs p1 p2 = .error .ioError := by
  simp [files_differ, h1, h2, ho1, ho2, hr]

/-- Stepping lemma: a read failure on the second file propagates. -/
theorem files_differ_read2_err {fs : FS} {p1 p2 : Path} {n : Nat} {f1 f2 : FileObj}
    (h1 : osStat fs p1 = .ok n) (h2 : osStat fs p2 = .ok n)
    (ho1 : openRead fs p1 = .ok f1) (ho2 : openRead fs p2 = .ok f2)
    (hr1 : f1.readFails = false) (hr2 : f2.readFails = true) :
    files_differ fs p1 p2 = .error .ioError := by
  simp [files_differ, h1, h2, ho1, ho2, hr1, hr2]

/-- Stepping lemma: the fault-free path runs the comparison loop. -/
theorem files_differ_run {fs : FS} {p1 p2 : Path} {n : Nat} {f1 f2 : FileObj}
    (h1 : osStat fs p1 = .ok n) (h2 : osStat fs p2 = .ok n)
    (ho1 : openRead fs p1 = .ok f1) (ho2 : openRead fs p2 = .ok f2)
    (hr1 : f1.readFails = false) (hr2 : f2.readFails = false) :
    files_differ fs p1 p2 =
      .ok (cmpData (f1.content.drop CHUNK) (f2.content.drop CHUNK)
                   (f1.content.take CHUNK) (f2.content.take CHUNK)) := by
  simp [files_differ, h1, h2, ho1, ho2, hr1, hr2]

theorem osStat_of_none {fs : FS} {p : Path} (h : fs.entries p = none) :
    osStat fs p = .error .fileNotFound := by
  simp [osStat, h]

theorem osStat_of_file {fs : FS} {p : Path} {f : FileObj}
    (h : fs.entries p = some (.file f)) (hs : f.statFails = false) :
    osStat fs p = .ok f.content.length := by
  simp [osStat, h, hs]

theorem openRead_of_file {fs : FS} {p : Path} {f : FileObj}
    (h : fs.entries p = some (.file f)) (ho : f.openFails = false) :
    openRead fs p = .ok f := by
  simp [openRead, h, ho]

/-- Claim C2: for every pair of paths holding fault-free regular files (or
nothing), `files_differ` returns `false` iff both files exist, have equal
size and equal byte content; in particular it returns `true` whenever
either file is missing. -/
theorem files_differ_false_iff_content (fs : FS) (p1 p2 : Path)
    (hc1 : cleanAt fs p1 = true) (hc2 : cleanAt fs p2 = true) :
    (files_differ fs p1 p2 = .ok false ↔
      ∃ f1 f2, fs.entries p1 = some (.file f1) ∧ fs.entries p2 = some (.file f2) ∧
        f1.content.length = f2.content.length ∧ f1.content = f2.content)
    ∧ ((fs.entries p1 = none ∨ fs.entries p2 = none) →
        files_differ fs p1 p2 = .ok true) := by
  unfold cleanAt at hc1 hc2
  rcases hE1 : fs.entries p1 with _ | e1
  · refine ⟨?_, fun _ => files_differ_stat1_err (osStat_of_none hE1)⟩
    rw [files_differ_stat1_err (osStat_of_none hE1)]
    constructor
    · intro h
      exact absurd h (by simp)
    · rintro ⟨f1, f2, hf1, -⟩
      exact absurd hf1 (by simp)
  · rcases e1 with f1 | _
    swap
    · rw [hE1] at hc1
      exact absurd hc1 (by decide)
    rw [hE1] at hc1
    simp only [Bool.and_eq_true, Bool.not_eq_true'] at hc1
    obtain ⟨⟨hs1, ho1⟩, hr1⟩ := hc1
    rcases hE2 : fs.entries p2 with _ | e2
    · refine ⟨?_, fun _ =>
        files_differ_stat2_err (osStat_of_file hE1 hs1) (osStat_of_none hE2)⟩
      rw [files_differ_stat2_err (osStat_of_file hE1 hs1) (osStat_of_none hE2)]
      constructor
      · intro h
        exact absurd h (by simp)
      · rintro ⟨g1, g2, -, hg2, -⟩
        exact absurd hg2 (by simp)
    · rcases e2 with f2 | _
      swap
      · rw [hE2] at hc2
        exact absurd hc2 (by decide)
      rw [hE2] at hc2
      simp only [Bool.and_eq_true, Bool.not_eq_true'] at hc2
      obtain ⟨⟨hs2, ho2⟩, hr2⟩ := hc2
      refine ⟨?_, ?_⟩
      swap
      · rintro (h | h)
        · exact absurd h (by simp)
        · exact absurd h (by simp)
      by_cases hlen : f1.content.length = f2.content.length
      · rw [files_differ_run (osStat_of_file hE1 hs1)
          (by rw [osStat_of_file hE2 hs2, hlen]) (openRead_of_file hE1 ho1)
          (openRead_of_file hE2 ho2) hr1 hr2]
        constructor
        · intro h
          have hcmp := Except.ok.inj h
          exact ⟨f1, f2, rfl, rfl, hlen, (cmpData_entry_iff _ _ hlen).mp hcmp⟩
        · rintro ⟨g1, g2, hg1, hg2, hglen, hgc⟩
          have e1 : g1 = f1 := (Entry.file.inj (Option.some.inj hg1.symm))
          have e2 : g2 = f2 := (Entry.file.inj (Option.some.inj hg2.symm))
          rw [e1, e2] at hgc
          rw [(cmpData_entry_iff _ _ hlen).mpr hgc]
      · rw [files_differ_size_ne (osStat_of_file hE1 hs1) (osStat_of_file hE2 hs2)
          (by simpa using hlen)]
        constructor
        · intro h
          exact absurd h (by simp)
        · rintro ⟨g1, g2, hg1, hg2, hglen, -⟩
          have e1 : g1 = f1 := (Entry.file.inj (Option.some.inj hg1.symm))
          have e2 : g2 = f2 := (Entry.file.inj (Option.some.inj hg2.symm))
          rw [e1, e2] at hglen
          exact absurd hglen hlen

/-- A small filesystem: one clean two-byte file at `"a"`, nothing else. -/
def fsC2 : FS where
  entries := fun p =>
    if p = "a" then some (.file ⟨[3, 1], false, false, false⟩) else none
  writeFails := fun _ => false

/-- Witness for claim C2 at the concrete filesystem `fsC2`. -/
theorem files_differ_false_iff_content_witness :
    (files_differ fsC2 "a" "b" = .ok false ↔
      ∃ f1 f2, fsC2.entries "a" = some (.file f1) ∧ fsC2.entries "b" = some (.file f2) ∧
        f1.content.length = f2.content.length ∧ f1.content = f2.content)
    ∧ ((fsC2.entries "a" = none ∨ fsC2.entries "b" = none) →
        files_differ fsC2 "a" "b" = .ok true) :=
  files_differ_false_iff_content fsC2 "a" "b" (by rfl) (by rfl)

/-- Two same-sized files; the first cannot be opened (permission denied on
open, while stat still succeeds). -/
def fsC6 : FS where
  entries := fun p =>
    if p = "p" then some (.file ⟨[7], false, true, false⟩)
    else if p = "q" then some (.file ⟨[8], false, false, false⟩)
    else none
  writeFails := fun _ => false

/-- Counterexample to claim C6: an open failure on the first file is not
swallowed — `files_differ` raises the permission error to the caller
instead of returning `true`. -/
theorem files_differ_swallow_counterexample :
    files_differ fsC6 "p" "q" = .error .permissionError ∧
    files_differ fsC6 "p" "q" ≠ .ok true := by
  have h1 : files_differ fsC6 "p" "q" = .error .permissionError := rfl
  refine ⟨h1, ?_⟩
  intro h
  rw [h1] at h
  exact Except.noConfusion h

/-- Claim C6 as amended: only `os.stat` failures are swallowed (the
comparison degrades to `true`); failures opening or reading either file
propagate to the caller as exceptions. -/
theorem files_differ_error_policy (fs : FS) (p1 p2 : Path) :
    (∀ e : PyErr, osStat fs p1 = .error e → files_differ fs p1 p2 = .ok true)
    ∧ (∀ (n : Nat) (e : PyErr), osStat fs p1 = .ok n → osStat fs p2 = .error e →
        files_differ fs p1 p2 = .ok true)
    ∧ (∀ (n : Nat) (e : PyErr), osStat fs p1 = .ok n → osStat fs p2 = .ok n →
        openRead fs p1 = .error e → files_differ fs p1 p2 = .error e)
    ∧ (∀ (n : Nat) (f1 : FileObj) (e : PyErr), osStat fs p1 = .ok n → osStat fs p2 = .ok n →
        openRead fs p1 = .ok f1 → openRead fs p2 = .error e →
        files_differ fs p1 p2 = .error e)
    ∧ (∀ (n : Nat) (f1 f2 : FileObj), osStat fs p1 = .ok n → osStat fs p2 = .ok n →
        openRead fs p1 = .ok f1 → openRead fs p2 = .ok f2 → f1.readFails = true →
        files_differ fs p1 p2 = .error .ioError)
    ∧ (∀ (n : Nat) (f1 f2 : FileObj), osStat fs p1 = .ok n → osStat fs p2 = .ok n →
        openRead fs p1 = .ok f1 → openRead fs p2 = .ok f2 → f1.readFails = false →
        f2.readFails = true → files_differ fs p1 p2 = .error .ioError) :=
  ⟨fun _ h => files_differ_stat1_err h,
   fun _ _ h1 h2 => files_differ_stat2_err h1 h2,
   fun _ _ h1 h2 ho => files_differ_open1_err h1 h2 ho,
   fun _ _ _ h1 h2 ho1 ho2 => files_differ_open2_err h1 h2 ho1 ho2,
   fun _ _ _ h1 h2 ho1 ho2 hr => files_differ_read1_err h1 h2 ho1 ho2 hr,
   fun _ _ _ h1 h2 ho1 ho2 hr1 hr2 => files_differ_read2_err h1 h2 ho1 ho2 hr1 hr2⟩

/-- Witness for the amended claim C6: a missing first file is swallowed
into `true`, while an open failure propagates. -/
theorem files_differ_error_policy_witness :
    files_differ fsC6 "r" "p" = .ok true ∧
    files_differ fsC6 "p" "q" = .error .permissionError := by
  constructor
  · exact (files_differ_error_policy fsC6 "r" "p").1 .fileNotFound (by rfl)
  · exact (files_differ_error_policy fsC6 "p" "q").2.2.1 1 .permissionError
      (by rfl) (by rfl) (by rfl)

/-! ## Deferred backend: claims C4, C9, C10 -/

/-- Splitting lemma for the commit loop: an error pinpoints the first
failing operation — everything before it applied successfully and the
error is exactly the one that operation raised. -/
theorem commitLoop_error_split (w : Bool) :
    ∀ (ops : List Op) (fs : FS) (e : PyErr) (op : Op) (fs1 : FS),
      Deferred.commitLoop w fs ops = .error (e, op, fs1) →
      ∃ pre post fs0, ops = pre ++ op :: post ∧
        Deferred.commitLoop w fs pre = .ok fs0 ∧
        Deferred.applyOp w fs0 op = .error (e, fs1) := by
  intro ops
  induction ops with
  | nil =>
    intro fs e op fs1 h
    exact absurd h (by simp [Deferred.commitLoop])
  | cons o rest ih =>
    intro fs e op fs1 h
    cases hc : Deferred.applyOp w fs o with
    | error p =>
      obtain ⟨e0, fs0⟩ := p
      rw [Deferred.commitLoop, hc] at h
      obtain ⟨he, hop, hfs⟩ : e0 = e ∧ o = op ∧ fs0 = fs1 := by
        have := Except.error.inj h
        exact ⟨congrArg Prod.fst this, congrArg Prod.fst (congrArg Prod.snd this),
          congrArg Prod.snd (congrArg Prod.snd this)⟩
      subst he; subst hop; subst hfs
      exact ⟨[], rest, fs, rfl, rfl, hc⟩
    | ok fs2 =>
      rw [Deferred.commitLoop, hc] at h
      obtain ⟨pre, post, fs0, hsplit, hloop, happly⟩ := ih fs2 e op fs1 h
      refine ⟨o :: pre, post, fs0, by rw [hsplit]; rfl, ?_, happly⟩
      rw [Deferred.commitLoop, hc]
      exact hloop

/-- Claim C4 as amended: `commit` applies the queued operations in FIFO
order and, on a partial failure, raises the error of the first failing
operation (all prior operations were applied and stay applied — no
rollback).  However the pending queue is NOT cleared and no terminal state
exists: the transaction object comes back unchanged, even from a fully
successful commit. -/
theorem commit_behavior (w : Bool) (fs : FS) (tr : Txn) :
    (Deferred.commit w fs tr).2 = tr
    ∧ ∀ (e : PyErr) (op : Op) (fs1 : FS),
        (Deferred.commit w fs tr).1 = .error (e, op, fs1) →
        ∃ pre post fs0, tr.pending = pre ++ op :: post ∧
          Deferred.commitLoop w fs pre = .ok fs0 ∧
          Deferred.applyOp w fs0 op = .error (e, fs1) :=
  ⟨rfl, fun e op fs1 h => commitLoop_error_split w tr.pending fs e op fs1 h⟩

/-- Witness for the amended claim C4: a one-element queue whose removal
targets a missing path; commit raises that operation's error and the
queue survives. -/
theorem commit_behavior_witness :
    (Deferred.commit false fsC2 ⟨[Op.remove "b"]⟩).2 = ⟨[Op.remove "b"]⟩ ∧
    ∃ pre post fs0, [Op.remove "b"] = pre ++ Op.remove "b" :: post ∧
      Deferred.commitLoop false fsC2 pre = .ok fs0 ∧
      Deferred.applyOp false fs0 (Op.remove "b") = .error (.fileNotFound, fsC2) :=
  ⟨(commit_behavior false fsC2 ⟨[Op.remove "b"]⟩).1,
   (commit_behavior false fsC2 ⟨[Op.remove "b"]⟩).2 .fileNotFound (Op.remove "b") fsC2
     (by rfl)⟩

/-- Counterexample to claim C4 as stated: a successful commit leaves the
pending queue intact — it is not cleared, and there is no `Committed`
state. -/
theorem commit_queue_counterexample :
    (Deferred.commit false fsC2 ⟨[Op.remove "a"]⟩).1 = .ok (fsC2.set "a" none) ∧
    (Deferred.commit false fsC2 ⟨[Op.remove "a"]⟩).2.pending = [Op.remove "a"] ∧
    [Op.remove "a"] ≠ ([] : List Op) := by
  refine ⟨rfl, rfl, ?_⟩
  intro h
  exact List.noConfusion h

/-- Claim C9: `remove` on the deferred backend unconditionally appends a
`Remove` operation, touching neither the filesystem nor raising (its type
is total and takes no filesystem); a missing target only raises at apply
time, when `_remove` falls through to `os.rmdir`. -/
theorem remove_enqueues_unconditionally (tr : Txn) (target : Path) :
    (Deferred.remove tr target).pending = tr.pending ++ [Op.remove target]
    ∧ ∀ fs : FS, fs.entries target = none →
        Deferred.applyRemove fs target = .error (.fileNotFound, fs) := by
  refine ⟨rfl, ?_⟩
  intro fs h
  simp [Deferred.applyRemove, isfile, osRmdir, h]

/-- Witness for claim C9 on a concrete missing target. -/
theorem remove_enqueues_unconditionally_witness :
    (Deferred.remove ⟨[]⟩ "b").pending = [Op.remove "b"] ∧
    Deferred.applyRemove fsC2 "b" = .error (.fileNotFound, fsC2) :=
  ⟨(remove_enqueues_unconditionally ⟨[]⟩ "b").1,
   (remove_enqueues_unconditionally ⟨[]⟩ "b").2 fsC2 (by rfl)⟩

/-- One caller-level invocation on the deferred backend, before commit. -/
inductive Call where
  | move (source target : Path)
  | copy (source target : Path)
  | remove (target : Path)
  deriving DecidableEq, Repr

/-- Run one public method; the filesystem is threaded through so that the
read-only nature of the enqueue phase is a provable fact. -/
def applyCall (fs : FS) (tr : Txn) : Call → Except PyErr (FS × Txn)
  | .move s t => Deferred.move fs tr s t
  | .copy s t => Deferred.copy fs tr s t
  | .remove t => .ok (fs, Deferred.remove tr t)

/-- Run a sequence of public methods. -/
def applyCalls (fs : FS) (tr : Txn) : List Call → Except PyErr (FS × Txn)
  | [] => .ok (fs, tr)
  | c :: rest =>
    match applyCall fs tr c with
    | .error e => .error e
    | .ok (fs1, tr1) => applyCalls fs1 tr1 rest

theorem applyCall_fs_eq {fs : FS} {tr : Txn} {c : Call} {fs1 : FS} {tr1 : Txn}
    (h : applyCall fs tr c = .ok (fs1, tr1)) : fs1 = fs := by
  cases c with
  | move s t =>
    rw [applyCall, Deferred.move] at h
    cases hd : files_differ fs s t with
    | error e =>
      rw [hd] at h
      exact absurd h (by simp)
    | ok b =>
      rw [hd] at h
      cases b
      · exact (congrArg Prod.fst (Except.ok.inj h)).symm
      · exact (congrArg Prod.fst (Except.ok.inj h)).symm
  | copy s t =>
    rw [applyCall, Deferred.copy] at h
    cases hd : files_differ fs s t with
    | error e =>
      rw [hd] at h
      exact absurd h (by simp)
    | ok b =>
      rw [hd] at h
      cases b
      · exact (congrArg Prod.fst (Except.ok.inj h)).symm
      · exact (congrArg Prod.fst (Except.ok.inj h)).symm
  | remove t =>
    rw [applyCall] at h
    exact (congrArg Prod.fst (Except.ok.inj h)).symm

theorem applyCalls_fs_eq :
    ∀ (calls : List Call) (fs : FS) (tr : Txn) (fs1 : FS) (tr1 : Txn),
      applyCalls fs tr calls = .ok (fs1, tr1) → fs1 = fs := by
  intro calls
  induction calls with
  | nil =>
    intro fs tr fs1 tr1 h
    rw [applyCalls] at h
    exact (congrArg Prod.fst (Except.ok.inj h)).symm
  | cons c rest ih =>
    intro fs tr fs1 tr1 h
    cases hc : applyCall fs tr c with
    | error e =>
      rw [applyCalls, hc] at h
      exact absurd h (by simp)
    | ok p =>
      obtain ⟨fs2, tr2⟩ := p
      rw [applyCalls, hc] at h
      rw [ih fs2 tr2 fs1 tr1 h]
      exact applyCall_fs_eq hc

/-- Claim C10: after any successfully enqueued sequence of move/copy/remove
calls, the filesystem is exactly what it was before any call (the enqueue
phase only reads), and `abort` — a total function, so it never raises —
discards the whole pending queue without taking or touching the
filesystem. -/
theorem abort_discards_queue (fs : FS) (tr : Txn) (calls : List Call) (fs1 : FS) (tr1 : Txn)
    (h : applyCalls fs tr calls = .ok (fs1, tr1)) :
    fs1 = fs ∧ Deferred.abort tr1 = ⟨[]⟩ :=
  ⟨applyCalls_fs_eq calls fs tr fs1 tr1 h, rfl⟩

/-- Witness for claim C10 on a concrete two-call sequence. -/
theorem abort_discards_queue_witness :
    fsC2 = fsC2 ∧ Deferred.abort ⟨[Op.move "a" "b", Op.remove "a"]⟩ = ⟨[]⟩ :=
  abort_discards_queue fsC2 ⟨[]⟩ [Call.move "a" "b", Call.remove "a"] fsC2
    ⟨[Op.move "a" "b", Op.remove "a"]⟩ (by rfl)

/-! ## Inversion lemmas for the mutating primitives -/

/-- The byte content of an entry, if it is a regular file. -/
def entryContent : Option Entry → Option Bytes
  | some (.file f) => some f.content
  | _ => none

theorem osRename_err_eq {w : Bool} {fs : FS} {a b : Path} {e : PyErr} {fs1 : FS}
    (h : osRename w fs a b = .error (e, fs1)) : fs1 = fs := by
  unfold osRename at h
  split_ifs at h
  · exact (congrArg Prod.snd (Except.error.inj h)).symm
  · exact (congrArg Prod.snd (Except.error.inj h)).symm
  · exact (congrArg Prod.snd (Except.error.inj h)).symm

theorem osRename_eval {w : Bool} {fs : FS} {a b : Path} {ea : Entry}
    (ha : fs.entries a = some ea) (hwa : fs.writeFails a = false)
    (hwb : fs.writeFails b = false) (hwin : (w && (fs.entries b).isSome) = false) :
    osRename w fs a b = .ok ((fs.set b (fs.entries a)).set a none) := by
  unfold osRename
  simp [ha, hwa, hwb]
  intro hw
  subst hw
  cases hb : fs.entries b with
  | none => rfl
  | some eb =>
    rw [hb] at hwin
    simp at hwin

theorem osRename_ok_inv {w : Bool} {fs : FS} {a b : Path} {fs1 : FS}
    (h : osRename w fs a b = .ok fs1) :
    fs1 = (fs.set b (fs.entries a)).set a none ∧ (fs.entries a).isSome = true ∧
    fs.writeFails a = false ∧ fs.writeFails b = false ∧
    (w && (fs.entries b).isSome) = false := by
  unfold osRename at h
  split_ifs at h with h1 h2 h3
  refine ⟨(Except.ok.inj h).symm, ?_, ?_, ?_, ?_⟩
  · simp only [Bool.not_eq_true, Option.isNone_eq_false_iff] at h1
    exact h1
  · simp only [Bool.not_eq_true, Bool.or_eq_false_iff] at h2
    exact h2.1
  · simp only [Bool.not_eq_true, Bool.or_eq_false_iff] at h2
    exact h2.2
  · simp only [Bool.not_eq_true] at h3
    exact h3

theorem osUnlink_eval_file {fs : FS} {p : Path} {f : FileObj}
    (h : fs.entries p = some (.file f)) (hw : fs.writeFails p = false) :
    osUnlink fs p = .ok (fs.set p none) := by
  simp [osUnlink, h, hw]

theorem copy2_ok_inv {fs : FS} {s d : Path} {fs1 : FS}
    (h : copy2 fs s d = .ok fs1) :
    ∃ f, fs.entries s = some (.file f) ∧ f.openFails = false ∧
      fs.writeFails d = false ∧ isdir fs d = false ∧ f.readFails = false ∧
      fs1 = fs.set d (some (.file ⟨f.content, false, false, false⟩)) := by
  cases hE : fs.entries s with
  | none => simp [copy2, hE] at h
  | some e =>
    cases e with
    | dir => simp [copy2, hE] at h
    | file f =>
      simp only [copy2, hE] at h
      split_ifs at h with h1 h2 h3 h4
      exact ⟨f, rfl, by simpa using h1, by simpa using h2, by simpa using h3,
        by simpa using h4, (Except.ok.inj h).symm⟩

/-! ## SafeReplace: claims C1 and C5 -/

/-- Source file with an injected read failure (size 3) and a target file
with content `[9]`; all write operations succeed. -/
def fsC1 : FS where
  entries := fun p =>
    if p = "s" then some (.file ⟨[1, 2, 3], false, false, true⟩)
    else if p = "t" then some (.file ⟨[9], false, false, false⟩)
    else none
  writeFails := fun _ => false

/-- Counterexample to claim C1: on a non-win32 platform the deferred
`_copy` takes the `else` branch (no backup), and a copy that dies
mid-stream leaves the pre-existing target truncated — after the failing
call the target exists but is NOT byte-identical to its pre-operation
content. -/
theorem restore_on_failure_counterexample :
    fsC1.entries "t" = some (.file ⟨[9], false, false, false⟩) ∧
    Deferred.applyCopy false fsC1 "s" "t" =
      .error (.ioError, fsC1.set "t" (some (.file ⟨[], false, false, false⟩))) ∧
    (fsC1.set "t" (some (.file ⟨[], false, false, false⟩))).entries "t" ≠
      fsC1.entries "t" :=
  ⟨rfl, rfl, by decide⟩

/-- Claim C1 as amended.  For `_move`, a failing apply step always leaves
the pre-existing target byte-identical and no backup behind: on win32 the
backup is renamed back and the original error re-raised, and on other
platforms the failing rename is atomic and touches nothing.  For `_copy`
the guarantee holds on win32 provided the failing copy died before
creating the target (e.g. the source was unreadable); a copy failure that
leaves a partially-written target is not restored (no backup exists off
win32, and on win32 the restore rename itself fails against the partial
file). -/
theorem restore_on_failure :
    (∀ (w : Bool) (fs : FS) (s t : Path) (fs0 : FS) (e : PyErr) (fs1 : FS),
        (w && pexists fs t) = true →
        osRename w fs t (oldOf t) = .ok fs0 →
        osRename w fs0 s t = .error (e, fs1) →
        Deferred.applyMove w fs s t =
          .error (e, (fs0.set t (fs0.entries (oldOf t))).set (oldOf t) none)
        ∧ ((fs0.set t (fs0.entries (oldOf t))).set (oldOf t) none).entries t = fs.entries t
        ∧ ((fs0.set t (fs0.entries (oldOf t))).set (oldOf t) none).entries (oldOf t) = none)
    ∧ (∀ (w : Bool) (fs : FS) (s t : Path) (e : PyErr) (fs1 : FS),
        (w && pexists fs t) = false →
        Deferred.applyMove w fs s t = .error (e, fs1) →
        fs1 = fs)
    ∧ (∀ (fs : FS) (s t : Path) (fs0 : FS) (e : PyErr),
        pexists fs t = true →
        osRename true fs t (oldOf t) = .ok fs0 →
        copy2 fs0 s t = .error (e, fs0) →
        Deferred.applyCopy true fs s t =
          .error (e, (fs0.set t (fs0.entries (oldOf t))).set (oldOf t) none)
        ∧ ((fs0.set t (fs0.entries (oldOf t))).set (oldOf t) none).entries t = fs.entries t
        ∧ ((fs0.set t (fs0.entries (oldOf t))).set (oldOf t) none).entries (oldOf t) = none) := by
  refine ⟨?_, ?_, ?_⟩
  · intro w fs s t fs0 e fs1 hb hs1 hs2
    obtain ⟨hfs0, hsomeT, hwT, hwOld, -⟩ := osRename_ok_inv hs1
    have hfs0_t : fs0.entries t = none := by
      rw [hfs0, FS.entries_set_self]
    have hfs0_old : fs0.entries (oldOf t) = fs.entries t := by
      rw [hfs0, FS.entries_set_ne _ (oldOf_ne_self t) _, FS.entries_set_self]
    have hfs1 : fs1 = fs0 := osRename_err_eq hs2
    rw [hfs1] at hs2
    obtain ⟨tEnt, hT⟩ := Option.isSome_iff_exists.mp hsomeT
    have hres : osRename w fs0 (oldOf t) t =
        .ok ((fs0.set t (fs0.entries (oldOf t))).set (oldOf t) none) := by
      have haold : fs0.entries (oldOf t) = some tEnt := by
        rw [hfs0_old, hT]
      refine osRename_eval haold ?_ ?_ ?_
      · rw [hfs0]
        simpa using hwOld
      · rw [hfs0]
        simpa using hwT
      · rw [hfs0_t]
        simp
    refine ⟨?_, ?_, ?_⟩
    · simp [Deferred.applyMove, hb, hs1, hs2, hres]
    · rw [FS.entries_set_ne _ (Ne.symm (oldOf_ne_self t)) _, FS.entries_set_self, hfs0_old]
    · rw [FS.entries_set_self]
  · intro w fs s t e fs1 hb h
    simp only [Deferred.applyMove] at h
    rw [if_neg (by simp [hb])] at h
    exact osRename_err_eq h
  · intro fs s t fs0 e hb hs1 hcopy
    obtain ⟨hfs0, hsomeT, hwT, hwOld, -⟩ := osRename_ok_inv hs1
    have hfs0_t : fs0.entries t = none := by
      rw [hfs0, FS.entries_set_self]
    have hfs0_old : fs0.entries (oldOf t) = fs.entries t := by
      rw [hfs0, FS.entries_set_ne _ (oldOf_ne_self t) _, FS.entries_set_self]
    obtain ⟨tEnt, hT⟩ := Option.isSome_iff_exists.mp hsomeT
    have hres : osRename true fs0 (oldOf t) t =
        .ok ((fs0.set t (fs0.entries (oldOf t))).set (oldOf t) none) := by
      have haold : fs0.entries (oldOf t) = some tEnt := by
        rw [hfs0_old, hT]
      refine osRename_eval haold ?_ ?_ ?_
      · rw [hfs0]
        simpa using hwOld
      · rw [hfs0]
        simpa using hwT
      · rw [hfs0_t]
        simp
    refine ⟨?_, ?_, ?_⟩
    · simp [Deferred.applyCopy, hb, hs1, hcopy, hres]
    · rw [FS.entries_set_ne _ (Ne.symm (oldOf_ne_self t)) _, FS.entries_set_self, hfs0_old]
    · rw [FS.entries_set_self]

/-- A target file `"t"` with content `[9]`, nothing else; used to witness
the restore protocol with a missing source. -/
def fsW1 : FS where
  entries := fun p => if p = "t" then some (.file ⟨[9], false, false, false⟩) else none
  writeFails := fun _ => false

/-- The state of `fsW1` after the backup rename of step 1. -/
def fs0W : FS := (fsW1.set (oldOf "t") (fsW1.entries "t")).set "t" none

/-- Witness for the amended claim C1, instantiating all three parts with a
missing source against the pre-existing target of `fsW1`. -/
theorem restore_on_failure_witness :
    (Deferred.applyMove true fsW1 "s" "t" =
        .error (.fileNotFound, (fs0W.set "t" (fs0W.entries (oldOf "t"))).set (oldOf "t") none)
      ∧ ((fs0W.set "t" (fs0W.entries (oldOf "t"))).set (oldOf "t") none).entries "t" =
          fsW1.entries "t"
      ∧ ((fs0W.set "t" (fs0W.entries (oldOf "t"))).set (oldOf "t") none).entries (oldOf "t") =
          none)
    ∧ fsW1 = fsW1
    ∧ (Deferred.applyCopy true fsW1 "s" "t" =
        .error (.fileNotFound, (fs0W.set "t" (fs0W.entries (oldOf "t"))).set (oldOf "t") none)
      ∧ ((fs0W.set "t" (fs0W.entries (oldOf "t"))).set (oldOf "t") none).entries "t" =
          fsW1.entries "t"
      ∧ ((fs0W.set "t" (fs0W.entries (oldOf "t"))).set (oldOf "t") none).entries (oldOf "t") =
          none) :=
  ⟨restore_on_failure.1 true fsW1 "s" "t" fs0W .fileNotFound fs0W (by rfl) (by rfl) (by rfl),
   restore_on_failure.2.1 false fsW1 "s" "t" .fileNotFound fsW1 (by rfl) (by rfl),
   restore_on_failure.2.2 fsW1 "s" "t" fs0W .fileNotFound (by rfl) (by rfl) (by rfl)⟩

/-- Claim C5: a successful deferred-backend `_move` or `_copy` onto a
pre-existing regular-file target leaves no `target + ".old"` behind (given
none existed beforehand) and the target's content equals the source's
pre-operation content. -/
theorem replace_on_success :
    (∀ (w : Bool) (fs : FS) (s t : Path) (tf : FileObj) (fs1 : FS),
        fs.entries t = some (.file tf) → fs.entries (oldOf t) = none →
        s ≠ t → s ≠ oldOf t →
        Deferred.applyMove w fs s t = .ok fs1 →
        fs1.entries (oldOf t) = none ∧
        entryContent (fs1.entries t) = entryContent (fs.entries s))
    ∧ (∀ (w : Bool) (fs : FS) (s t : Path) (tf : FileObj) (fs1 : FS),
        fs.entries t = some (.file tf) → fs.entries (oldOf t) = none →
        s ≠ t → s ≠ oldOf t →
        Deferred.applyCopy w fs s t = .ok fs1 →
        fs1.entries (oldOf t) = none ∧
        entryContent (fs1.entries t) = entryContent (fs.entries s)) := by
  constructor
  · intro w fs s t tf fs1 hT hOld hst hso h
    by_cases hb : (w && pexists fs t) = true
    · cases hs1 : osRename w fs t (oldOf t) with
      | error p =>
        simp [Deferred.applyMove, hb, hs1] at h
      | ok fs0 =>
        obtain ⟨hfs0, hsomeT, hwT, hwOld, -⟩ := osRename_ok_inv hs1
        cases hs2 : osRename w fs0 s t with
        | error p =>
          obtain ⟨e2, fsE⟩ := p
          cases hs3 : osRename w fsE (oldOf t) t with
          | error q => simp [Deferred.applyMove, hb, hs1, hs2, hs3] at h
          | ok fs3 => simp [Deferred.applyMove, hb, hs1, hs2, hs3] at h
        | ok fs2 =>
          obtain ⟨hfs2, hsomeS, hwS, hwT2, -⟩ := osRename_ok_inv hs2
          have h2old : fs2.entries (oldOf t) = some (.file tf) := by
            rw [hfs2, FS.entries_set_ne _ (Ne.symm hso) _,
              FS.entries_set_ne _ (oldOf_ne_self t) _, hfs0,
              FS.entries_set_ne _ (oldOf_ne_self t) _, FS.entries_set_self, hT]
          have hw2old : fs2.writeFails (oldOf t) = false := by
            rw [hfs2, hfs0]
            simpa using hwOld
          have hunl : osUnlink fs2 (oldOf t) = .ok (fs2.set (oldOf t) none) :=
            osUnlink_eval_file h2old hw2old
          have hfs1 : fs1 = fs2.set (oldOf t) none := by
            simp [Deferred.applyMove, hb, hs1, hs2, hunl] at h
            exact h.symm
          refine ⟨?_, ?_⟩
          · rw [hfs1, FS.entries_set_self]
          · rw [hfs1, FS.entries_set_ne _ (Ne.symm (oldOf_ne_self t)) _, hfs2,
              FS.entries_set_ne _ (Ne.symm hst) _, FS.entries_set_self, hfs0,
              FS.entries_set_ne _ hst _, FS.entries_set_ne _ hso _]
    · simp only [Deferred.applyMove] at h
      rw [if_neg hb] at h
      obtain ⟨hfs1, hsomeS, -, -, -⟩ := osRename_ok_inv h
      refine ⟨?_, ?_⟩
      · rw [hfs1, FS.entries_set_ne _ (Ne.symm hso) _,
          FS.entries_set_ne _ (oldOf_ne_self t) _]
        exact hOld
      · rw [hfs1, FS.entries_set_ne _ (Ne.symm hst) _, FS.entries_set_self]
  · intro w fs s t tf fs1 hT hOld hst hso h
    by_cases hb : (w && pexists fs t) = true
    · cases hs1 : osRename w fs t (oldOf t) with
      | error p =>
        simp [Deferred.applyCopy, hb, hs1] at h
      | ok fs0 =>
        obtain ⟨hfs0, hsomeT, hwT, hwOld, -⟩ := osRename_ok_inv hs1
        cases hc : copy2 fs0 s t with
        | error p =>
          obtain ⟨e2, fsE⟩ := p
          cases hs3 : osRename w fsE (oldOf t) t with
          | error q => simp [Deferred.applyCopy, hb, hs1, hc, hs3] at h
          | ok fs3 => simp [Deferred.applyCopy, hb, hs1, hc, hs3] at h
        | ok fs2 =>
          obtain ⟨f, hS, -, -, -, -, hfs2⟩ := copy2_ok_inv hc
          have h2old : fs2.entries (oldOf t) = some (.file tf) := by
            rw [hfs2, FS.entries_set_ne _ (oldOf_ne_self t) _, hfs0,
              FS.entries_set_ne _ (oldOf_ne_self t) _, FS.entries_set_self, hT]
          have hw2old : fs2.writeFails (oldOf t) = false := by
            rw [hfs2, hfs0]
            simpa using hwOld
          have hunl : osUnlink fs2 (oldOf t) = .ok (fs2.set (oldOf t) none) :=
            osUnlink_eval_file h2old hw2old
          have hfs1 : fs1 = fs2.set (oldOf t) none := by
            simp [Deferred.applyCopy, hb, hs1, hc, hunl] at h
            exact h.symm
          have hSfs : fs.entries s = some (.file f) := by
            rw [← hS, hfs0, FS.entries_set_ne _ hst _, FS.entries_set_ne _ hso _]
          refine ⟨?_, ?_⟩
          · rw [hfs1, FS.entries_set_self]
          · rw [hfs1, FS.entries_set_ne _ (Ne.symm (oldOf_ne_self t)) _, hfs2,
              FS.entries_set_self, hSfs]
            simp [entryContent]
    · simp only [Deferred.applyCopy] at h
      rw [if_neg hb] at h
      obtain ⟨f, hS, -, -, -, -, hfs1⟩ := copy2_ok_inv h
      refine ⟨?_, ?_⟩
      · rw [hfs1, FS.entries_set_ne _ (oldOf_ne_self t) _]
        exact hOld
      · rw [hfs1, FS.entries_set_self, hS]
        simp [entryContent]

/-- A clean source `"s"` (content `[1, 2]`) and target `"t"` (content
`[9]`); all writes succeed. -/
def fsW5 : FS where
  entries := fun p =>
    if p = "s" then some (.file ⟨[1, 2], false, false, false⟩)
    else if p = "t" then some (.file ⟨[9], false, false, false⟩)
    else none
  writeFails := fun _ => false

/-- `fsW5` after the backup rename of step 1. -/
def fs0W5 : FS := (fsW5.set (oldOf "t") (fsW5.entries "t")).set "t" none

/-- `fsW5` after a successful win32 `_copy`: content copied over the
target and the backup unlinked. -/
def fs1W5 : FS :=
  (fs0W5.set "t" (some (.file ⟨[1, 2], false, false, false⟩))).set (oldOf "t") none

/-- Witness for claim C5: a concrete successful non-win32 `_move` and a
concrete successful win32 `_copy`, both onto the existing target of
`fsW5`. -/
theorem replace_on_success_witness :
    (((fsW5.set "t" (fsW5.entries "s")).set "s" none).entries (oldOf "t") = none ∧
      entryContent (((fsW5.set "t" (fsW5.entries "s")).set "s" none).entries "t") =
        entryContent (fsW5.entries "s"))
    ∧ (fs1W5.entries (oldOf "t") = none ∧
      entryContent (fs1W5.entries "t") = entryContent (fsW5.entries "s")) :=
  ⟨replace_on_success.1 false fsW5 "s" "t" ⟨[9], false, false, false⟩
      ((fsW5.set "t" (fsW5.entries "s")).set "s" none)
      (by rfl) (by rfl) (by decide) (by decide) (by rfl),
   replace_on_success.2 true fsW5 "s" "t" ⟨[9], false, false, false⟩ fs1W5
      (by rfl) (by rfl) (by decide) (by decide) (by rfl)⟩

/-! ## Native backend: claims C3, C7, C8 -/

/-- The comparison loop immediately terminates on two empty streams. -/
theorem cmpData_nil : cmpData [] [] [] [] = false := by
  rw [cmpData]
  simp

/-- Two byte-identical (empty) files at `"a"` and `"b"`. -/
def fsC3 : FS where
  entries := fun p =>
    if p = "a" then some (.file ⟨[], false, false, false⟩)
    else if p = "b" then some (.file ⟨[], false, false, false⟩)
    else none
  writeFails := fun _ => false

theorem files_differ_fsC3 : files_differ fsC3 "a" "b" = .ok false := by
  have h0 : files_differ fsC3 "a" "b" = .ok (cmpData [] [] [] []) := rfl
  rw [h0, cmpData_nil]

/-- Counterexample to claim C3: with byte-identical `a` and `b`, the
native backend's `move` does not remove `a` — its pre-check calls
`self.remove(a)`, which raises a `NameError` on the unbound name `source`,
so the whole call fails and no transacted operation is issued. -/
theorem noop_skip_counterexample :
    files_differ fsC3 "a" "b" = .ok false ∧
    Native.move (fun p => p) moduleSourceBinding fsC3 "a" "b" = .error .nameError := by
  refine ⟨files_differ_fsC3, ?_⟩
  simp [Native.move, files_differ_fsC3, Native.remove, moduleSourceBinding]

/-- Claim C3 as amended: the pre-check-and-skip works in the deferred
backend — `move(a, b)` on identical files enqueues `Remove(a)` and after
commit `a` is gone and `b` untouched — but is broken in the native
backend: there the pre-check's `remove` raises a `NameError` (unbound
`source`), and even with that name bound, execution would fall through
and still issue the transacted move after the delete. -/
theorem noop_skip_behavior :
    (∀ (w : Bool) (fs : FS) (a b : Path) (c : Bytes),
        fs.entries a = some (.file ⟨c, false, false, false⟩) →
        fs.entries b = some (.file ⟨c, false, false, false⟩) →
        a ≠ b → fs.writeFails a = false →
        Deferred.move fs ⟨[]⟩ a b = .ok (fs, ⟨[Op.remove a]⟩)
        ∧ Deferred.commitLoop w fs [Op.remove a] = .ok (fs.set a none)
        ∧ (fs.set a none).entries a = none
        ∧ (fs.set a none).entries b = fs.entries b)
    ∧ (∀ (enc : Path → Path) (fs : FS) (a b : Path),
        files_differ fs a b = .ok false →
        Native.move enc moduleSourceBinding fs a b = .error .nameError)
    ∧ (∀ (enc : Path → Path) (sv : Path) (fs : FS) (a b : Path),
        files_differ fs a b = .ok false → isdir fs a = false → pexists fs b = true →
        Native.move enc (some sv) fs a b =
          .ok ([WinCall.deleteFile (enc sv)] ++
            [WinCall.moveFile (enc a) (oldOf (enc a)), WinCall.moveFile (enc a) (enc a),
             WinCall.deleteFile (oldOf (enc a))])) := by
  refine ⟨?_, ?_, ?_⟩
  · intro w fs a b c hA hB hab hwA
    have h1 : osStat fs a = .ok c.length := osStat_of_file hA rfl
    have h2 : osStat fs b = .ok c.length := osStat_of_file hB rfl
    have ho1 : openRead fs a = .ok ⟨c, false, false, false⟩ := openRead_of_file hA rfl
    have ho2 : openRead fs b = .ok ⟨c, false, false, false⟩ := openRead_of_file hB rfl
    have hfd : files_differ fs a b = .ok false := by
      rw [files_differ_run h1 h2 ho1 ho2 rfl rfl,
        show cmpData (List.drop CHUNK c) (List.drop CHUNK c) (List.take CHUNK c)
            (List.take CHUNK c) = false from (cmpData_entry_iff c c rfl).mpr rfl]
    refine ⟨?_, ?_, ?_, ?_⟩
    · simp [Deferred.move, hfd]
    · have hunl : osUnlink fs a = .ok (fs.set a none) := osUnlink_eval_file hA hwA
      simp [Deferred.commitLoop, Deferred.applyOp, Deferred.applyRemove, isfile, hA, hunl]
    · rw [FS.entries_set_self]
    · rw [FS.entries_set_ne _ (Ne.symm hab) _]
  · intro enc fs a b hfd
    simp [Native.move, hfd, Native.remove, moduleSourceBinding]
  · intro enc sv fs a b hfd hdir hb
    simp [Native.move, hfd, Native.remove, hdir, hb]

/-- Witness for the amended claim C3 on the identical files of `fsC3`. -/
theorem noop_skip_behavior_witness :
    (Deferred.move fsC3 ⟨[]⟩ "a" "b" = .ok (fsC3, ⟨[Op.remove "a"]⟩)
      ∧ Deferred.commitLoop false fsC3 [Op.remove "a"] = .ok (fsC3.set "a" none)
      ∧ (fsC3.set "a" none).entries "a" = none
      ∧ (fsC3.set "a" none).entries "b" = fsC3.entries "b")
    ∧ Native.move (fun p => p) moduleSourceBinding fsC3 "a" "b" = .error .nameError
    ∧ Native.move (fun p => p) (some "x") fsC3 "a" "b" =
        .ok ([WinCall.deleteFile "x"] ++
          [WinCall.moveFile "a" (oldOf "a"), WinCall.moveFile "a" "a",
           WinCall.deleteFile (oldOf "a")]) :=
  ⟨noop_skip_behavior.1 false fsC3 "a" "b" [] (by rfl) (by rfl) (by decide) (by rfl),
   noop_skip_behavior.2.1 (fun p => p) fsC3 "a" "b" files_differ_fsC3,
   noop_skip_behavior.2.2 (fun p => p) "x" fsC3 "a" "b" files_differ_fsC3 (by rfl) (by rfl)⟩

/-- Counterexample to claim C7: the native `remove` raises `NameError`
before reaching any OS call — it never passes any encoded path (derived
from `source` or otherwise) to the transacted delete. -/
theorem native_remove_counterexample :
    Native.remove (fun p => p) moduleSourceBinding fsC2 "a" = .error .nameError ∧
    Native.remove (fun p => p) moduleSourceBinding fsC2 "a" ≠
      .ok [WinCall.deleteFile "a"] ∧
    Native.remove (fun p => p) moduleSourceBinding fsC2 "a" ≠
      .ok [WinCall.removeDir "a"] := by
  refine ⟨rfl, ?_, ?_⟩
  · intro h
    rw [show Native.remove (fun p => p) moduleSourceBinding fsC2 "a" = .error .nameError
      from rfl] at h
    exact Except.noConfusion h
  · intro h
    rw [show Native.remove (fun p => p) moduleSourceBinding fsC2 "a" = .error .nameError
      from rfl] at h
    exact Except.noConfusion h

/-- Claim C7 as amended: the native `remove` computes its encoded path
from the name `source`, which is unbound in the method's scope, not from
`target`; the shipped code therefore raises `NameError` before any OS
call, and had `source` been bound its value — never `target` — would be
the deleted path (`target` is consulted only by the `isdir` test). -/
theorem native_remove_unbound_source (enc : Path → Path) (fs : FS) (target : Path) :
    Native.remove enc moduleSourceBinding fs target = .error .nameError
    ∧ ∀ s : Path,
        Native.remove enc (some s) fs target = .ok [WinCall.removeDir (enc s)] ∨
        Native.remove enc (some s) fs target = .ok [WinCall.deleteFile (enc s)] := by
  refine ⟨rfl, ?_⟩
  intro s
  by_cases hd : isdir fs target = true
  · exact Or.inl (by simp [Native.remove, hd])
  · exact Or.inr (by simp [Native.remove, hd])

/-- Claim C8: every path argument the native `move`/`copy` hands to the
transacted API is the encoding of `source` (or that encoding suffixed with
`".old"`): `tgtenc` is computed as `source.encode(...)`, so the `target`
argument is never the destination of the transacted rename/copy. -/
theorem native_encodes_source_paths :
    (∀ (enc : Path → Path) (fs : FS) (s t : Path) (calls : List WinCall),
        Native.move enc moduleSourceBinding fs s t = .ok calls →
        ∀ c ∈ calls, ∀ p ∈ callArgs c, p = enc s ∨ p = oldOf (enc s))
    ∧ (∀ (enc : Path → Path) (fs : FS) (s t : Path) (calls : List WinCall),
        Native.copy enc fs s t = .ok calls →
        ∀ c ∈ calls, ∀ p ∈ callArgs c, p = enc s ∨ p = oldOf (enc s)) := by
  constructor
  · intro enc fs s t calls h
    cases hd : files_differ fs s t with
    | error e => simp [Native.move, hd] at h
    | ok b =>
      cases b with
      | false => simp [Native.move, hd, Native.remove, moduleSourceBinding] at h
      | true =>
        by_cases hp : pexists fs t = true
        · simp [Native.move, hd, hp] at h
          subst h
          intro c hc
          simp at hc
          rcases hc with rfl | rfl | rfl
          · intro p hp2
            simp [callArgs] at hp2
            rcases hp2 with rfl | rfl
            · exact Or.inl rfl
            · exact Or.inr rfl
          · intro p hp2
            simp [callArgs] at hp2
            subst hp2
            exact Or.inl rfl
          · intro p hp2
            simp [callArgs] at hp2
            subst hp2
            exact Or.inr rfl
        · simp [Native.move, hd, hp] at h
          subst h
          intro c hc
          simp at hc
          subst hc
          intro p hp2
          simp [callArgs] at hp2
          subst hp2
          exact Or.inl rfl
  · intro enc fs s t calls h
    cases hd : files_differ fs s t with
    | error e => simp [Native.copy, hd] at h
    | ok b =>
      cases b with
      | false =>
        simp [Native.copy, hd] at h
        subst h
        intro c hc
        simp at hc
      | true =>
        by_cases hp : pexists fs t = true
        · simp [Native.copy, hd, hp] at h
          subst h
          intro c hc
          simp at hc
          rcases hc with rfl | rfl | rfl
          · intro p hp2
            simp [callArgs] at hp2
            rcases hp2 with rfl | rfl
            · exact Or.inl rfl
            · exact Or.inr rfl
          · intro p hp2
            simp [callArgs] at hp2
            subst hp2
            exact Or.inl rfl
          · intro p hp2
            simp [callArgs] at hp2
            subst hp2
            exact Or.inr rfl
        · simp [Native.copy, hd, hp] at h
          subst h
          intro c hc
          simp at hc
          subst hc
          intro p hp2
          simp [callArgs] at hp2
          subst hp2
          exact Or.inl rfl

/-- Witness for claim C8 at a concrete native move and copy. -/
theorem native_encodes_source_paths_witness :
    (∀ c ∈ [WinCall.moveFile "a" "a"], ∀ p ∈ callArgs c, p = "a" ∨ p = oldOf "a")
    ∧ (∀ c ∈ [WinCall.copyFile "a" "a"], ∀ p ∈ callArgs c, p = "a" ∨ p = oldOf "a") :=
  ⟨native_encodes_source_paths.1 (fun p => p) fsC2 "a" "b" [WinCall.moveFile "a" "a"]
     (by rfl),
   native_encodes_source_paths.2 (fun p => p) fsC2 "a" "b" [WinCall.copyFile "a" "a"]
     (by rfl)⟩

end Esky
